import Mathlib

/-!
Verification of the HAASP retrieval service core
(src/retrieval_service/faiss_manager.py) against its specification.

The FaissManager is embedded shallowly: the chunker is a pure function on
strings, the FAISS index is the ordered list of (id, vector) pairs it holds,
the PostgreSQL chunks table is the list of committed rows together with the
connection's uncommitted pending rows, and the persisted index file is an
optional snapshot.  Embedding vectors are lists of rationals so that L2
distances stay exact; a boolean oracle says whether the database raises a
psycopg2 error during a given call, which is how every failure path of the
source is reached.
-/

namespace Haasp

/-- CHUNK_SIZE constant of faiss_manager.py. -/
def CHUNK_SIZE : Nat := 512

/-- CHUNK_OVERLAP constant of faiss_manager.py. -/
def CHUNK_OVERLAP : Nat := 128

/-- One pass of Python str.split with no separator: maximal groups of
non-whitespace characters, in order, with empty groups dropped.  The
accumulator holds the characters of the current group in reverse. -/
def splitTokens : List Char → List Char → List String
  | [], acc => if acc.isEmpty then [] else [String.mk acc.reverse]
  | c :: cs, acc =>
    if c.isWhitespace then
      if acc.isEmpty then splitTokens cs []
      else String.mk acc.reverse :: splitTokens cs []
    else splitTokens cs (c :: acc)

/-- tokens = text.split() in FaissManager._chunk_text. -/
def tokenize (text : String) : List String :=
  splitTokens text.toList []

/-- The loop of FaissManager._chunk_text: for i in range(0, len(tokens),
CHUNK_SIZE - CHUNK_OVERLAP) take the window tokens[i : i + CHUNK_SIZE].  Each
iteration drops CHUNK_SIZE - CHUNK_OVERLAP tokens; the fuel starts at the
token count, which bounds the number of iterations because the stride is
positive. -/
def slideAux : Nat → List String → List (List String)
  | 0, _ => []
  | fuel + 1, tokens =>
    if tokens = [] then []
    else tokens.take CHUNK_SIZE :: slideAux fuel (tokens.drop (CHUNK_SIZE - CHUNK_OVERLAP))

/-- FaissManager._chunk_text: split text on whitespace, then emit sliding
windows of CHUNK_SIZE tokens advanced by CHUNK_SIZE - CHUNK_OVERLAP tokens,
each window joined back with single spaces. -/
def chunk_text (text : String) : List String :=
  (slideAux (tokenize text).length (tokenize text)).map (String.intercalate " ")

/-- The chunk-count formula exactly as the specification's section 8 states
it: ceil(max(T - overlap, 0) / stride), with overlap CHUNK_OVERLAP and stride
CHUNK_SIZE - CHUNK_OVERLAP, written with natural ceiling division.  Stated
from the specification's words, to be compared with chunk_text. -/
def specChunkCount (T : Nat) : Nat :=
  (max (T - CHUNK_OVERLAP) 0 + (CHUNK_SIZE - CHUNK_OVERLAP) - 1) / (CHUNK_SIZE - CHUNK_OVERLAP)

lemma slideAux_length :
    ∀ (fuel : Nat) (tokens : List String), tokens.length ≤ fuel →
      (slideAux fuel tokens).length = (tokens.length + 383) / 384 := by
  intro fuel
  induction fuel with
  | zero =>
    intro tokens h
    have : tokens = [] := List.eq_nil_of_length_eq_zero (Nat.le_zero.mp h)
    subst this
    simp [slideAux]
  | succ n ih =>
    intro tokens h
    by_cases htok : tokens = []
    · subst htok; simp [slideAux]
    · have hpos : 1 ≤ tokens.length := List.length_pos.mpr htok
      have hdrop : (tokens.drop (CHUNK_SIZE - CHUNK_OVERLAP)).length = tokens.length - 384 := by
        simp [CHUNK_SIZE, CHUNK_OVERLAP]
      have hrec := ih (tokens.drop (CHUNK_SIZE - CHUNK_OVERLAP)) (by omega)
      rw [slideAux, if_neg htok, List.length_cons, hrec, hdrop]
      rcases le_or_lt tokens.length 384 with hle | hgt
      · have h0 : tokens.length - 384 = 0 := by omega
        have h2 : tokens.length + 383 = (tokens.length - 1) + 384 := by omega
        rw [h0, h2, Nat.add_div_right _ (by norm_num)]
        have h3 : (tokens.length - 1) / 384 = 0 := Nat.div_eq_of_lt (by omega)
        norm_num [h3]
      · have h1 : tokens.length - 384 + 383 = tokens.length - 1 := by omega
        have h2 : tokens.length + 383 = (tokens.length - 1) + 384 := by omega
        rw [h1, h2, Nat.add_div_right _ (by norm_num)]

lemma chunk_text_length (text : String) :
    (chunk_text text).length = ((tokenize text).length + 383) / 384 := by
  unfold chunk_text
  rw [List.length_map]
  exact slideAux_length _ _ le_rfl

/-- Claim C5 counterexample: at the one-token input, _chunk_text produces one
chunk, while the specification's count formula ceil(max(T - overlap, 0) /
stride) yields zero at T = 1; so the claimed formula does not match the
code. -/
theorem C5_chunk_count_counterexample :
    (chunk_text "a").length ≠ specChunkCount (tokenize "a").length := by
  decide

/-- Claim C5, amended: for an input whose whitespace-split token count is T,
_chunk_text produces ceil(T / stride) chunks (stride = CHUNK_SIZE -
CHUNK_OVERLAP = 384), not ceil(max(T - overlap, 0) / stride); zero tokens
still produce zero chunks. -/
theorem C5_chunk_count_amended (text : String) :
    (chunk_text text).length
        = ((tokenize text).length + (CHUNK_SIZE - CHUNK_OVERLAP) - 1)
            / (CHUNK_SIZE - CHUNK_OVERLAP)
      ∧ (tokenize text = [] → chunk_text text = []) := by
  constructor
  · have h384 : CHUNK_SIZE - CHUNK_OVERLAP = 384 := rfl
    rw [h384]
    have h : (tokenize text).length + 384 - 1 = (tokenize text).length + 383 := by omega
    rw [h]
    exact chunk_text_length text
  · intro h
    unfold chunk_text
    rw [h]
    simp [slideAux]

/-- An embedding vector, modelled over the rationals so squared L2 distances
are exact. -/
abbrev Vec := List ℚ

/-- One row of the PostgreSQL chunks table: (doc_id, chunk_text, vector_id).
The SERIAL primary key is row-only bookkeeping that no claim touches, so it
is not modelled; vector_id is the 64-bit integer binding the row to the
vector stored under the same id. -/
structure Row where
  doc_id : String
  chunk_text : String
  vector_id : Int
deriving DecidableEq

/-- The mutable state a FaissManager instance owns: the in-memory FAISS
index (stored (id, vector) pairs in insertion order, so ntotal is the list
length), the persisted index file (none when data/faiss.index does not
exist), the committed rows of the chunks table, and the rows inserted on the
connection's open transaction but not yet committed. -/
structure ManagerState where
  index : List (Int × Vec)
  indexFile : Option (List (Int × Vec))
  committed : List Row
  pending : List Row
deriving DecidableEq

/-- The state of a fresh manager with no index file and an empty table. -/
def emptyState : ManagerState := ⟨[], none, [], []⟩

/-- A psycopg2.Error raised by the database layer. -/
structure DbError where
deriving DecidableEq

/-- The side effects of add_document, in the order the source performs
them: the index.add_with_ids mutation, the metadata commit or rollback, and
the faiss.write_index persistence. -/
inductive Event
  | indexAdd
  | dbCommit
  | dbRollback
  | saveIndex
deriving DecidableEq

deriving instance DecidableEq for Except

/-- What one add_document call produces: the manager state it leaves
behind, the side effects in order, and either the number of chunks added or
the propagated database error. -/
structure AddOutcome where
  state : ManagerState
  events : List Event
  result : Except DbError Nat
deriving DecidableEq

/-- vector_ids = np.arange(start_id, start_id + n) of add_document. -/
def arangeIds (start n : Nat) : List Int :=
  (List.range' start n).map Int.ofNat

/-- The metadata rows one add_document call inserts: (doc_id, chunks[i],
vector_ids[i]) in chunk order. -/
def rowsFor (doc_id : String) (chunks : List String) (start : Nat) : List Row :=
  (chunks.zip (arangeIds start chunks.length)).map (fun p => ⟨doc_id, p.1, p.2⟩)

/-- The (id, vector) pairs one add_document call hands to add_with_ids:
the embeddings of the chunks, in order, under the allocated ids. -/
def entriesFor (embed : String → Vec) (chunks : List String) (start : Nat) :
    List (Int × Vec) :=
  (arangeIds start chunks.length).zip (chunks.map embed)

/-- The UNIQUE(vector_id) constraint check the database applies to the rows
add_document is about to insert: true when one of them collides with a row
already visible on the connection. -/
def conflictB (st : ManagerState) (doc_id content : String) : Bool :=
  (st.committed ++ st.pending).any
    (fun r => (rowsFor doc_id (chunk_text content) st.index.length).any
      (fun nr => decide (nr.vector_id = r.vector_id)))

/-- FaissManager.add_document.  Steps of the source, in order: chunk the
content and return immediately when no chunks result; embed the chunks; read
start_id = index.ntotal; allocate vector_ids = arange(start_id, start_id +
len(chunks)); add the vectors to the in-memory index under those ids
(entriesFor); insert one row per chunk (rowsFor) and commit; finally write
the index file.  dbFail models a psycopg2 error raised inside the
insert/commit block and conflictB the UNIQUE violation the database itself
would raise: either way the transaction is rolled back (nothing committed,
pending cleared), the error propagates, the vectors stay in the in-memory
index and the index file is not rewritten. -/
def add_document (embed : String → Vec) (dbFail : Bool) (st : ManagerState)
    (doc_id content : String) : AddOutcome :=
  if chunk_text content = [] then ⟨st, [], Except.ok 0⟩
  else if dbFail || conflictB st doc_id content then
    ⟨{ st with
        index := st.index ++ entriesFor embed (chunk_text content) st.index.length,
        pending := [] },
      [Event.indexAdd, Event.dbRollback], Except.error ⟨⟩⟩
  else
    ⟨{ st with
        index := st.index ++ entriesFor embed (chunk_text content) st.index.length,
        indexFile := some (st.index ++ entriesFor embed (chunk_text content) st.index.length),
        committed := st.committed ++ st.pending
          ++ rowsFor doc_id (chunk_text content) st.index.length,
        pending := [] },
      [Event.indexAdd, Event.dbCommit, Event.saveIndex],
      Except.ok (chunk_text content).length⟩

/-- FaissManager.reset: truncate the chunks table and commit; when the
truncate raises a psycopg2 error the exception is caught, the transaction is
rolled back and execution continues.  Then the index file is removed and the
in-memory index reinitialized empty.  The call never raises, and it does not
write a fresh index file. -/
def reset (dbFail : Bool) (st : ManagerState) : ManagerState :=
  if dbFail then { st with pending := [], index := [], indexFile := none }
  else { st with committed := [], pending := [], index := [], indexFile := none }

/-- Squared L2 distance between two vectors, which is what a flat L2 faiss
index reports as the score. -/
def sqDist (a b : Vec) : ℚ :=
  (List.zipWith (fun x y => (x - y) ^ 2) a b).sum

/-- Comparison of scored index entries by distance. -/
def distLE (a b : Int × ℚ) : Prop := a.2 ≤ b.2

instance : DecidableRel distLE :=
  fun a b => inferInstanceAs (Decidable (a.2 ≤ b.2))

instance : IsTotal (Int × ℚ) distLE := ⟨fun a b => le_total a.2 b.2⟩

instance : IsTrans (Int × ℚ) distLE := ⟨fun _ _ _ h1 h2 => le_trans h1 h2⟩

/-- The external index's search contract (faiss IndexIDMap over
IndexFlatL2): score every stored vector against the query, return the k
nearest as (id, distance) in ascending distance order, and pad unfilled
slots with the sentinel id -1 when fewer than k vectors are stored. -/
def faissSearch (entries : List (Int × Vec)) (q : Vec) (k : Nat) : List (Int × ℚ) :=
  ((entries.map (fun e => (e.1, sqDist q e.2))).insertionSort distLE).take k
    ++ List.replicate (k - entries.length) (-1, 0)

/-- One element of the list FaissManager.search returns. -/
structure SearchResult where
  doc_id : String
  chunk_text : String
  score : ℚ
deriving DecidableEq

/-- distances, vector_ids = self.index.search(query_embedding, k) in
FaissManager.search, as (id, distance) pairs. -/
def hitsOf (embed : String → Vec) (st : ManagerState) (query : String) (k : Nat) :
    List (Int × ℚ) :=
  faissSearch st.index (embed query) k

/-- vec_ids_tuple of FaissManager.search: the returned ids with the
sentinel id -1 dropped, in hit order. -/
def vecIdsTuple (embed : String → Vec) (st : ManagerState) (query : String) (k : Nat) :
    List Int :=
  ((hitsOf embed st query k).map Prod.fst).filter (fun v => decide (v ≠ -1))

/-- The rows the IN-clause query of FaissManager.search fetches; the
connection sees the committed rows plus its own pending ones. -/
def fetchedRows (embed : String → Vec) (st : ManagerState) (query : String) (k : Nat) :
    List Row :=
  (st.committed ++ st.pending).filter
    (fun r => decide (r.vector_id ∈ vecIdsTuple embed st query k))

/-- The result loop of FaissManager.search: walk the hits in the order the
index returned them, appending (doc_id, chunk_text, score) whenever the
rows_by_vec_id mapping has the hit's id, silently skipping the rest. -/
def searchRows (embed : String → Vec) (st : ManagerState) (query : String) (k : Nat) :
    List SearchResult :=
  (hitsOf embed st query k).filterMap (fun h =>
    ((fetchedRows embed st query k).find? (fun r => decide (r.vector_id = h.1))).map
      (fun row => ⟨row.doc_id, row.chunk_text, h.2⟩))

/-- FaissManager.search: embed the query, ask the index for the k nearest
neighbours, drop the sentinel id -1 to form the IN-clause tuple and return
an empty list at once when the tuple is empty; otherwise fetch the matching
rows in one query and walk the hits in index order appending a result
whenever the id has a row.  dbFail models a psycopg2 error in the query
block: the transaction is rolled back and the error propagates. -/
def search (embed : String → Vec) (dbFail : Bool) (st : ManagerState)
    (query : String) (k : Nat) : ManagerState × Except DbError (List SearchResult) :=
  if vecIdsTuple embed st query k = [] then (st, Except.ok [])
  else if dbFail then ({ st with pending := [] }, Except.error ⟨⟩)
  else (st, Except.ok (searchRows embed st query k))

/-- One ingestion request: its document id, its content, and whether the
database fails during this call. -/
structure AddCall where
  doc_id : String
  content : String
  dbFail : Bool

/-- The state left behind by one ingestion request. -/
def stepAdd (embed : String → Vec) (st : ManagerState) (c : AddCall) : ManagerState :=
  (add_document embed c.dbFail st c.doc_id c.content).state

/-- Run a sequence of ingestion requests against the manager. -/
def runAdds (embed : String → Vec) (st : ManagerState) (calls : List AddCall) :
    ManagerState :=
  calls.foldl (stepAdd embed) st

/-- An ingestion request on which the database does not fail. -/
def okCall (p : String × String) : AddCall := ⟨p.1, p.2, false⟩

/-- The ids stored in the vector index, in insertion order. -/
def idsOf (st : ManagerState) : List Int := st.index.map Prod.fst

lemma length_arangeIds (start n : Nat) : (arangeIds start n).length = n := by
  unfold arangeIds
  rw [List.length_map, List.length_range']

lemma arangeIds_bounds {s n : Nat} :
    ∀ v ∈ arangeIds s n, (s : Int) ≤ v ∧ v < ((s + n : Nat) : Int) := by
  intro v hv
  simp only [arangeIds, List.mem_map, List.mem_range'] at hv
  obtain ⟨m, ⟨i, hi, rfl⟩, rfl⟩ := hv
  constructor
  · simp [Int.ofNat_eq_natCast]
  · simp [Int.ofNat_eq_natCast]
    omega

lemma arangeIds_append (s m n : Nat) :
    arangeIds s m ++ arangeIds (s + m) n = arangeIds s (m + n) := by
  unfold arangeIds
  rw [← List.map_append, List.range'_append_1, Nat.add_comm n m]

lemma length_entriesFor (embed : String → Vec) (chunks : List String) (start : Nat) :
    (entriesFor embed chunks start).length = chunks.length := by
  simp [entriesFor, length_arangeIds]

lemma map_fst_entriesFor (embed : String → Vec) (chunks : List String) (start : Nat) :
    (entriesFor embed chunks start).map Prod.fst = arangeIds start chunks.length := by
  apply List.map_fst_zip
  simp [length_arangeIds]

lemma map_vector_id_rowsFor (d : String) (chunks : List String) (s : Nat) :
    (rowsFor d chunks s).map Row.vector_id = arangeIds s chunks.length := by
  unfold rowsFor
  rw [List.map_map]
  have h : (Row.vector_id ∘ fun p : String × Int => (⟨d, p.1, p.2⟩ : Row)) = Prod.snd := rfl
  rw [h]
  exact List.map_snd_zip _ _ (by simp [length_arangeIds])

lemma mem_rowsFor {row : Row} {d : String} {chunks : List String} {s : Nat}
    (h : row ∈ rowsFor d chunks s) :
    row.doc_id = d ∧ row.chunk_text ∈ chunks := by
  simp only [rowsFor, List.mem_map] at h
  obtain ⟨p, hp, rfl⟩ := h
  exact ⟨rfl, (List.of_mem_zip hp).1⟩

lemma add_document_index (embed : String → Vec) (f : Bool) (st : ManagerState)
    (d c : String) :
    (add_document embed f st d c).state.index
      = st.index ++ entriesFor embed (chunk_text c) st.index.length := by
  unfold add_document
  split_ifs with h1 h2
  · simp [h1, entriesFor, arangeIds, List.range']
  · rfl
  · rfl

lemma add_document_ids (embed : String → Vec) (f : Bool) (st : ManagerState)
    (d c : String) :
    idsOf (add_document embed f st d c).state
      = idsOf st ++ arangeIds st.index.length (chunk_text c).length := by
  unfold idsOf
  rw [add_document_index, List.map_append, map_fst_entriesFor]

lemma add_document_length (embed : String → Vec) (f : Bool) (st : ManagerState)
    (d c : String) :
    (add_document embed f st d c).state.index.length
      = st.index.length + (chunk_text c).length := by
  rw [add_document_index]
  simp [length_entriesFor]

lemma stepAdd_length (embed : String → Vec) (st : ManagerState) (c : AddCall) :
    (stepAdd embed st c).index.length
      = st.index.length + (chunk_text c.content).length :=
  add_document_length embed c.dbFail st c.doc_id c.content

lemma runAdds_length_le (embed : String → Vec) (calls : List AddCall) :
    ∀ st : ManagerState, st.index.length ≤ (runAdds embed st calls).index.length := by
  induction calls with
  | nil => intro st; simp [runAdds]
  | cons c rest ih =>
    intro st
    have h1 : st.index.length ≤ (stepAdd embed st c).index.length := by
      rw [stepAdd_length]; omega
    have h2 := ih (stepAdd embed st c)
    simpa [runAdds] using le_trans h1 h2

/-- Claim C1: within any sequence of ingestions, each addDocument call
allocates exactly the contiguous id block arange(nTotal_before,
nTotal_before + n) on top of the index, where nTotal_before is the index
length read at the start of that call, and the block of a later call starts
at or after the end of an earlier call's block, so blocks of distinct calls
(successful ones included) never overlap. -/
theorem C1_id_blocks (embed : String → Vec) (st0 : ManagerState)
    (pre mid : List AddCall) (c1 c2 : AddCall) :
    idsOf (stepAdd embed (runAdds embed st0 pre) c1)
        = idsOf (runAdds embed st0 pre)
          ++ arangeIds (runAdds embed st0 pre).index.length
              (chunk_text c1.content).length
      ∧ idsOf (stepAdd embed (runAdds embed (stepAdd embed (runAdds embed st0 pre) c1) mid) c2)
        = idsOf (runAdds embed (stepAdd embed (runAdds embed st0 pre) c1) mid)
          ++ arangeIds (runAdds embed (stepAdd embed (runAdds embed st0 pre) c1) mid).index.length
              (chunk_text c2.content).length
      ∧ (runAdds embed st0 pre).index.length + (chunk_text c1.content).length
          ≤ (runAdds embed (stepAdd embed (runAdds embed st0 pre) c1) mid).index.length := by
  refine ⟨add_document_ids _ _ _ _ _, add_document_ids _ _ _ _ _, ?_⟩
  have h := runAdds_length_le embed mid (stepAdd embed (runAdds embed st0 pre) c1)
  rw [stepAdd_length] at h
  exact h

/-- Claim C8: addDocument with empty content returns success with zero
chunks added and leaves the manager state — in-memory index, persisted index
file, committed rows and open transaction — exactly unchanged, whatever the
database oracle would have answered. -/
theorem C8_empty_content_noop (embed : String → Vec) (dbFail : Bool)
    (st : ManagerState) (doc_id : String) :
    add_document embed dbFail st doc_id "" = ⟨st, [], Except.ok 0⟩ := by
  have h : chunk_text "" = [] := rfl
  simp [add_document, h]

/-- Claim C10: search is read-only: on the success path and on the database
error path alike, it leaves the vector index contents, its total count, the
persisted index file and the committed rows of the metadata store
unchanged. -/
theorem C10_search_readonly (embed : String → Vec) (dbFail : Bool)
    (st : ManagerState) (query : String) (k : Nat) :
    (search embed dbFail st query k).1.index = st.index
      ∧ (search embed dbFail st query k).1.index.length = st.index.length
      ∧ (search embed dbFail st query k).1.indexFile = st.indexFile
      ∧ (search embed dbFail st query k).1.committed = st.committed := by
  unfold search
  split_ifs <;> simp

/-- A concrete manager state holding one indexed vector, a persisted index
file and one committed metadata row. -/
def exSt : ManagerState :=
  ⟨[((0 : Int), [(1 : ℚ)])], some [((0 : Int), [(1 : ℚ)])], [⟨"d", "x", 0⟩], []⟩

/-- Claim C4 counterexample: when clearing the metadata store fails, reset
does not abort before touching the vector index: at this concrete state it
still empties the in-memory index and removes the persisted index file. -/
theorem C4_reset_failure_counterexample :
    ¬ ((reset true exSt).index = exSt.index
        ∧ (reset true exSt).indexFile = exSt.indexFile) := by
  decide

/-- Claim C4, amended: if reset fails while clearing the metadata store, the
psycopg2 error is caught and swallowed (the transaction is rolled back), and
reset nevertheless proceeds: the in-memory index is reinitialized empty and
the persisted index file is removed, while the committed metadata rows are
left in place — so after such a reset the metadata store can report rows the
index lacks. -/
theorem C4_reset_failure_amended (st : ManagerState) :
    reset true st = { st with pending := [], index := [], indexFile := none }
      ∧ (reset true st).committed = st.committed := by
  constructor <;> simp [reset]

lemma add_document_nil (embed : String → Vec) (f : Bool) (st : ManagerState)
    (d c : String) (h : chunk_text c = []) :
    add_document embed f st d c = ⟨st, [], Except.ok 0⟩ := by
  unfold add_document
  rw [if_pos h]

lemma add_document_fail (embed : String → Vec) (f : Bool) (st : ManagerState)
    (d c : String) (h : chunk_text c ≠ []) (h2 : (f || conflictB st d c) = true) :
    add_document embed f st d c
      = ⟨{ st with
            index := st.index ++ entriesFor embed (chunk_text c) st.index.length,
            pending := [] },
          [Event.indexAdd, Event.dbRollback], Except.error ⟨⟩⟩ := by
  unfold add_document
  rw [if_neg h, if_pos h2]

lemma add_document_ok (embed : String → Vec) (f : Bool) (st : ManagerState)
    (d c : String) (h : chunk_text c ≠ []) (h2 : (f || conflictB st d c) = false) :
    add_document embed f st d c
      = ⟨{ st with
            index := st.index ++ entriesFor embed (chunk_text c) st.index.length,
            indexFile := some (st.index ++ entriesFor embed (chunk_text c) st.index.length),
            committed := st.committed ++ st.pending
              ++ rowsFor d (chunk_text c) st.index.length,
            pending := [] },
          [Event.indexAdd, Event.dbCommit, Event.saveIndex],
          Except.ok (chunk_text c).length⟩ := by
  unfold add_document
  rw [if_neg h, if_neg (by simp [h2])]

/-- What add_document does when the metadata transaction raises, and the
side-effect order on success: the statement body for claim C3.  On the
failure path the result is the propagated error, nothing new is committed
and the open transaction is rolled back to empty, the vectors added in step
5 remain in the in-memory index, and the index file is untouched; on any
run that reports success, the recorded effects are index mutation, then
metadata commit, then index persistence last. -/
def rollbackSpec (embed : String → Vec) (st : ManagerState) (d c : String) : Prop :=
  (∃ e, (add_document embed true st d c).result = Except.error e)
    ∧ (add_document embed true st d c).state.committed = st.committed
    ∧ (add_document embed true st d c).state.pending = []
    ∧ (add_document embed true st d c).state.index
        = st.index ++ entriesFor embed (chunk_text c) st.index.length
    ∧ (add_document embed true st d c).state.indexFile = st.indexFile
    ∧ (add_document embed true st d c).events = [Event.indexAdd, Event.dbRollback]
    ∧ ∀ f : Bool, (add_document embed f st d c).result = Except.ok (chunk_text c).length
        → (add_document embed f st d c).events
            = [Event.indexAdd, Event.dbCommit, Event.saveIndex]

/-- Claim C3: in addDocument the vector-index mutation happens before the
metadata commit and the durable index persistence happens last; when the
metadata transaction raises, the transaction is rolled back in full, the
error is propagated, the vectors already added remain in the in-memory
index, and the index is not persisted in that call. -/
theorem C3_failure_ordering (embed : String → Vec) (st : ManagerState)
    (d c : String) (h : chunk_text c ≠ []) : rollbackSpec embed st d c := by
  have hfail := add_document_fail embed true st d c h (by simp)
  refine ⟨⟨⟨⟩, by rw [hfail]⟩, by rw [hfail], by rw [hfail], by rw [hfail],
    by rw [hfail], by rw [hfail], ?_⟩
  intro f hok
  cases f with
  | true => rw [hfail] at hok; simp at hok
  | false =>
    cases h2 : conflictB st d c with
    | true =>
      rw [add_document_fail embed false st d c h (by simp [h2])] at hok
      simp at hok
    | false => rw [add_document_ok embed false st d c h (by simp [h2])]

/-- Claim C3 witness at a concrete input. -/
theorem C3_failure_ordering_witness :
    chunk_text "b" ≠ [] ∧ rollbackSpec (fun s => [(s.length : ℚ)]) emptyState "a" "b" :=
  ⟨by decide, C3_failure_ordering (fun s => [(s.length : ℚ)]) emptyState "a" "b" (by decide)⟩

/-- Claim C7 counterexample: there is no validation: addDocument called with
the empty docId is not rejected — at this concrete input it returns success
for one chunk and mutates the metadata store (and the index) — and search
called with k = 0 returns a success, not an error. -/
theorem C7_no_validation_counterexample :
    (add_document (fun s => [(s.length : ℚ)]) false emptyState "" "hello").result
        = Except.ok 1
      ∧ (add_document (fun s => [(s.length : ℚ)]) false emptyState "" "hello").state
          ≠ emptyState
      ∧ (add_document (fun s => [(s.length : ℚ)]) false emptyState "" "hello").state.committed
          = [⟨"", "hello", 0⟩]
      ∧ (search (fun s => [(s.length : ℚ)]) false emptyState "q" 0).2 = Except.ok [] := by
  decide

/-- The behaviour of addDocument on an empty docId: the statement body for
the amended claim C7. -/
def noValidationSpec (embed : String → Vec) (content : String) : Prop :=
  (add_document embed false emptyState "" content).result
      = Except.ok (chunk_text content).length
    ∧ (add_document embed false emptyState "" content).state.committed
        = rowsFor "" (chunk_text content) 0
    ∧ (add_document embed false emptyState "" content).state.index.length
        = (chunk_text content).length

/-- Claim C7, amended: neither input is validated: addDocument accepts an
empty docId and ingests the content's chunks normally, storing its metadata
rows under the empty docId and growing the index, and search forwards k to
the vector index unchecked (k = 0 yields an empty success). -/
theorem C7_no_validation_amended (embed : String → Vec) (content : String)
    (h : chunk_text content ≠ []) : noValidationSpec embed content := by
  have hok := add_document_ok embed false emptyState "" content h
    (by simp [conflictB, emptyState])
  refine ⟨by rw [hok], by rw [hok]; simp [emptyState], ?_⟩
  rw [add_document_length]
  simp [emptyState]

/-- Claim C7 amended witness at a concrete input. -/
theorem C7_no_validation_amended_witness :
    chunk_text "hello" ≠ [] ∧ noValidationSpec (fun s => [(s.length : ℚ)]) "hello" :=
  ⟨by decide, C7_no_validation_amended (fun s => [(s.length : ℚ)]) "hello" (by decide)⟩

lemma vecIdsTuple_empty_index (embed : String → Vec) (st : ManagerState)
    (q : String) (k : Nat) (h : st.index = []) :
    vecIdsTuple embed st q k = [] := by
  unfold vecIdsTuple hitsOf faissSearch
  rw [h]
  simp

lemma search_empty_index (embed : String → Vec) (f : Bool) (st : ManagerState)
    (q : String) (k : Nat) (h : st.index = []) :
    search embed f st q k = (st, Except.ok []) := by
  unfold search
  rw [if_pos (vecIdsTuple_empty_index embed st q k h)]

/-- Claim C9: reset is idempotent — running it twice leaves the same empty
state as once — a search after a reset returns the empty list whatever the
database oracle says (the index is empty, so the code returns before
querying), and the next addDocument allocates its vector ids starting at
0. -/
theorem C9_reset_idempotent (embed : String → Vec) (dbFail : Bool)
    (st : ManagerState) (query d c : String) (k : Nat) :
    reset false (reset false st) = reset false st
      ∧ search embed dbFail (reset false st) query k = (reset false st, Except.ok [])
      ∧ idsOf (add_document embed dbFail (reset false st) d c).state
          = arangeIds 0 (chunk_text c).length := by
  refine ⟨by simp [reset], search_empty_index _ _ _ _ _ (by simp [reset]), ?_⟩
  rw [add_document_ids]
  simp [reset, idsOf]

lemma find?_filter_of_imp {α : Type} {l : List α} {p q : α → Bool}
    (h : ∀ a, q a = true → p a = true) : (l.filter p).find? q = l.find? q := by
  induction l with
  | nil => rfl
  | cons a t ih =>
    by_cases hq : q a = true
    · rw [List.filter_cons_of_pos (h a hq), List.find?_cons_of_pos _ hq,
        List.find?_cons_of_pos _ hq]
    · by_cases hp : p a = true
      · rw [List.filter_cons_of_pos hp, List.find?_cons_of_neg _ (by simp_all),
          List.find?_cons_of_neg _ (by simp_all), ih]
      · rw [List.filter_cons_of_neg (by simp_all),
          List.find?_cons_of_neg _ (by simp_all), ih]

/-- The per-hit join claim C6 states search through: the sentinel id -1 is
dropped, an id with no row visible on the connection is dropped, and any
other hit joins to the first row carrying its id, keeping the hit's distance
as the score. -/
def joinHit (st : ManagerState) (h : Int × ℚ) : Option SearchResult :=
  if h.1 = -1 then none
  else ((st.committed ++ st.pending).find? (fun r => decide (r.vector_id = h.1))).map
    (fun row => ⟨row.doc_id, row.chunk_text, h.2⟩)

lemma searchRows_eq_joinHit (embed : String → Vec) (st : ManagerState)
    (q : String) (k : Nat) :
    searchRows embed st q k = (hitsOf embed st q k).filterMap (joinHit st) := by
  unfold searchRows
  apply List.filterMap_congr
  intro h hmem
  by_cases hneg : h.1 = -1
  · have hnone : (fetchedRows embed st q k).find?
        (fun r => decide (r.vector_id = h.1)) = none := by
      rw [List.find?_eq_none]
      intro r hr
      have hmemt : r.vector_id ∈ vecIdsTuple embed st q k :=
        of_decide_eq_true (List.mem_filter.mp hr).2
      have hne : r.vector_id ≠ -1 :=
        of_decide_eq_true (List.mem_filter.mp hmemt).2
      simp [hneg, hne]
    rw [hnone, joinHit, if_pos hneg]
    rfl
  · have htuple : h.1 ∈ vecIdsTuple embed st q k :=
      List.mem_filter.mpr ⟨List.mem_map.mpr ⟨h, hmem, rfl⟩, by simp [hneg]⟩
    rw [joinHit, if_neg hneg]
    unfold fetchedRows
    rw [find?_filter_of_imp]
    intro r hr
    have : r.vector_id = h.1 := of_decide_eq_true hr
    simp [this, htuple]

lemma search_ok (embed : String → Vec) (st : ManagerState) (q : String) (k : Nat) :
    search embed false st q k
      = (st, Except.ok ((hitsOf embed st q k).filterMap (joinHit st))) := by
  unfold search
  by_cases h : vecIdsTuple embed st q k = []
  · rw [if_pos h]
    have hnil : (hitsOf embed st q k).filterMap (joinHit st) = [] := by
      rw [List.filterMap_eq_nil_iff]
      intro a ha
      have ha1 : a.1 = -1 := by
        by_contra hne
        have : a.1 ∈ vecIdsTuple embed st q k :=
          List.mem_filter.mpr ⟨List.mem_map.mpr ⟨a, ha, rfl⟩, by simp [hne]⟩
        rw [h] at this
        exact absurd this (List.not_mem_nil _)
      simp [joinHit, ha1]
    rw [hnil]
  · rw [if_neg h, if_neg Bool.false_ne_true, searchRows_eq_joinHit]

lemma filterMap_joinHit_replicate (st : ManagerState) (k : Nat) :
    (List.replicate k ((-1 : Int), (0 : ℚ))).filterMap (joinHit st) = [] := by
  rw [List.filterMap_eq_nil_iff]
  intro a ha
  have := (List.mem_replicate.mp ha).2
  simp [joinHit, this]

lemma scores_sublist (st : ManagerState) (l : List (Int × ℚ)) :
    ((l.filterMap (joinHit st)).map SearchResult.score).Sublist (l.map Prod.snd) := by
  induction l with
  | nil => simp
  | cons h t ih =>
    cases hj : joinHit st h with
    | none =>
      rw [List.filterMap_cons_none hj, List.map_cons]
      exact ih.cons _
    | some r =>
      have hscore : r.score = h.2 := by
        unfold joinHit at hj
        by_cases hne : h.1 = -1
        · rw [if_pos hne] at hj
          exact absurd hj (by simp)
        · rw [if_neg hne] at hj
          obtain ⟨row, hrow, hr⟩ := Option.map_eq_some'.mp hj
          rw [← hr]
      rw [List.filterMap_cons_some hj, List.map_cons, List.map_cons, hscore]
      exact ih.cons₂ _

lemma sorted_take_scores (entries : List (Int × Vec)) (q : Vec) (k : Nat) :
    List.Sorted (· ≤ ·)
      ((((entries.map (fun e => (e.1, sqDist q e.2))).insertionSort distLE).take k).map
        Prod.snd) := by
  have h1 : List.Sorted distLE
      ((entries.map (fun e => (e.1, sqDist q e.2))).insertionSort distLE) :=
    List.sorted_insertionSort distLE _
  have h2 : List.Sorted distLE
      (((entries.map (fun e => (e.1, sqDist q e.2))).insertionSort distLE).take k) :=
    List.Pairwise.sublist (List.take_sublist _ _) h1
  exact List.Pairwise.map Prod.snd (fun _ _ hab => hab) h2

/-- Claim C6: on the success path search returns, in the exact order the
vector index returned its neighbours, the per-hit join of each hit — so any
hit whose id is the sentinel -1 or has no metadata row is silently dropped
rather than failing the request — and the scores of the returned results are
non-decreasing by position. -/
theorem C6_search_order_drop (embed : String → Vec) (st : ManagerState)
    (query : String) (k : Nat) :
    search embed false st query k
        = (st, Except.ok ((hitsOf embed st query k).filterMap (joinHit st)))
      ∧ List.Sorted (· ≤ ·)
          (((hitsOf embed st query k).filterMap (joinHit st)).map SearchResult.score) := by
  refine ⟨search_ok embed st query k, ?_⟩
  unfold hitsOf faissSearch
  rw [List.filterMap_append, filterMap_joinHit_replicate, List.append_nil]
  exact List.Pairwise.sublist (scores_sublist st _) (sorted_take_scores st.index (embed query) k)

/-- The consistency invariant of a manager reachable through successful
ingestions from the fresh state: no transaction is open, the index stores
exactly the ids 0 .. ntotal-1 in order, and the committed rows carry the
same id list. -/
def GoodState (st : ManagerState) : Prop :=
  st.pending = [] ∧ idsOf st = arangeIds 0 st.index.length
    ∧ st.committed.map Row.vector_id = idsOf st

lemma goodState_empty : GoodState emptyState := by
  refine ⟨rfl, ?_, rfl⟩
  unfold idsOf emptyState arangeIds
  simp

lemma nodup_arangeIds (s n : Nat) : (arangeIds s n).Nodup := by
  unfold arangeIds
  exact (List.nodup_range' s n).map (fun a b hab => Int.ofNat.inj hab)

lemma conflictB_false_of_good {st : ManagerState} (hg : GoodState st)
    (d c : String) : conflictB st d c = false := by
  obtain ⟨hp, hids, hcomm⟩ := hg
  unfold conflictB
  rw [hp, List.append_nil]
  rw [List.any_eq_false]
  intro r hr
  simp only [List.any_eq_true, not_exists, not_and, decide_eq_true_eq]
  intro nr hnr heq
  have h1 : nr.vector_id ∈ arangeIds st.index.length (chunk_text c).length := by
    rw [← map_vector_id_rowsFor d (chunk_text c) st.index.length]
    exact List.mem_map_of_mem _ hnr
  have h2 : r.vector_id ∈ arangeIds 0 st.index.length := by
    rw [← hids, ← hcomm]
    exact List.mem_map_of_mem _ hr
  have b1 := (arangeIds_bounds _ h1).1
  have b2 := (arangeIds_bounds _ h2).2
  rw [heq] at b1
  simp only [Nat.zero_add, Nat.cast_ofNat] at b1 b2
  omega

lemma okAdd_good (embed : String → Vec) {st : ManagerState} (hg : GoodState st)
    (p : String × String) :
    GoodState (stepAdd embed st (okCall p))
      ∧ (stepAdd embed st (okCall p)).committed
          = st.committed ++ rowsFor p.1 (chunk_text p.2) st.index.length := by
  obtain ⟨hp, hids, hcomm⟩ := hg
  by_cases hc : chunk_text p.2 = []
  · unfold stepAdd okCall
    rw [add_document_nil _ _ _ _ _ hc]
    exact ⟨⟨hp, hids, hcomm⟩, by simp [rowsFor, hc]⟩
  · have hcf := conflictB_false_of_good ⟨hp, hids, hcomm⟩ p.1 p.2
    unfold stepAdd okCall
    rw [add_document_ok embed false st p.1 p.2 hc (by simp [hcf])]
    refine ⟨⟨rfl, ?_, ?_⟩, by rw [hp, List.append_nil]⟩
    · show (st.index ++ entriesFor embed (chunk_text p.2) st.index.length).map Prod.fst
        = arangeIds 0 (st.index ++ entriesFor embed (chunk_text p.2) st.index.length).length
      rw [List.map_append, map_fst_entriesFor, List.length_append, length_entriesFor]
      unfold idsOf at hids
      rw [hids]
      have := arangeIds_append 0 st.index.length (chunk_text p.2).length
      rw [Nat.zero_add] at this
      rw [this]
    · show (st.committed ++ st.pending ++ rowsFor p.1 (chunk_text p.2) st.index.length).map
          Row.vector_id
        = (st.index ++ entriesFor embed (chunk_text p.2) st.index.length).map Prod.fst
      rw [hp, List.append_nil, List.map_append, List.map_append,
        map_vector_id_rowsFor, map_fst_entriesFor]
      unfold idsOf at hcomm
      rw [hcomm]

lemma runAdds_good (embed : String → Vec) (docs : List (String × String)) :
    ∀ st : ManagerState, GoodState st →
      GoodState (runAdds embed st (docs.map okCall))
        ∧ ∀ row ∈ (runAdds embed st (docs.map okCall)).committed,
            row ∈ st.committed
              ∨ ∃ p ∈ docs, row.doc_id = p.1 ∧ row.chunk_text ∈ chunk_text p.2 := by
  induction docs with
  | nil =>
    intro st hg
    exact ⟨hg, fun row hrow => Or.inl hrow⟩
  | cons p rest ih =>
    intro st hg
    obtain ⟨hg1, hcomm1⟩ := okAdd_good embed hg p
    obtain ⟨hgood, hrows⟩ := ih (stepAdd embed st (okCall p)) hg1
    have hfold : runAdds embed st ((p :: rest).map okCall)
        = runAdds embed (stepAdd embed st (okCall p)) (rest.map okCall) := rfl
    rw [hfold]
    refine ⟨hgood, ?_⟩
    intro row hrow
    rcases hrows row hrow with hin | ⟨q, hq, hdoc, hch⟩
    · rw [hcomm1] at hin
      rcases List.mem_append.mp hin with h1 | h2
      · exact Or.inl h1
      · obtain ⟨hd, hc⟩ := mem_rowsFor h2
        exact Or.inr ⟨p, List.mem_cons_self p rest, hd, hc⟩
    · exact Or.inr ⟨q, List.mem_cons_of_mem p hq, hdoc, hch⟩

lemma mem_filterMap_joinHit {st : ManagerState} {r : SearchResult}
    {l : List (Int × ℚ)} (hr : r ∈ l.filterMap (joinHit st)) :
    ∃ row ∈ st.committed ++ st.pending,
      r.doc_id = row.doc_id ∧ r.chunk_text = row.chunk_text := by
  obtain ⟨h, hmem, hj⟩ := List.mem_filterMap.mp hr
  unfold joinHit at hj
  by_cases hne : h.1 = -1
  · rw [if_pos hne] at hj
    exact absurd hj (by simp)
  · rw [if_neg hne] at hj
    obtain ⟨row, hfind, hrow⟩ := Option.map_eq_some'.mp hj
    exact ⟨row, List.mem_of_find?_eq_some hfind, by rw [← hrow], by rw [← hrow]⟩

/-- Claim C2: after any sequence of successful addDocument calls from the
fresh state, the id list of the vector index and the vector_id column of the
metadata store are the very same duplicate-free list — every vectorId in the
index has exactly one row and vice versa — and every result a subsequent
search returns resolves through its vectorId to a committed metadata row
whose docId and chunk text it reports, each committed row being one of the
ingested documents' chunks. -/
theorem C2_store_bijection_join (embed : String → Vec) (docs : List (String × String)) :
    idsOf (runAdds embed emptyState (docs.map okCall))
        = (runAdds embed emptyState (docs.map okCall)).committed.map Row.vector_id
      ∧ ((runAdds embed emptyState (docs.map okCall)).committed.map Row.vector_id).Nodup
      ∧ (∀ query k, ∃ results,
          search embed false (runAdds embed emptyState (docs.map okCall)) query k
            = (runAdds embed emptyState (docs.map okCall), Except.ok results)
          ∧ ∀ r ∈ results,
              ∃ row ∈ (runAdds embed emptyState (docs.map okCall)).committed,
                r.doc_id = row.doc_id ∧ r.chunk_text = row.chunk_text)
      ∧ ∀ row ∈ (runAdds embed emptyState (docs.map okCall)).committed,
          ∃ p ∈ docs, row.doc_id = p.1 ∧ row.chunk_text ∈ chunk_text p.2 := by
  obtain ⟨⟨hp, hids, hcomm⟩, hprov⟩ := runAdds_good embed docs emptyState goodState_empty
  refine ⟨hcomm.symm, ?_, ?_, ?_⟩
  · rw [hcomm, hids]
    exact nodup_arangeIds 0 _
  · intro query k
    refine ⟨_, search_ok embed _ query k, ?_⟩
    intro r hr
    obtain ⟨row, hrow, h1, h2⟩ := mem_filterMap_joinHit hr
    rw [hp, List.append_nil] at hrow
    exact ⟨row, hrow, h1, h2⟩
  · intro row hrow
    rcases hprov row hrow with h | h
    · simp [emptyState] at h
    · exact h

end Haasp
